import Mathlib

/-!
Verification of the `mitmachen` core (`www/python/src/api.py`): category
subtree expansion, two-source problem aggregation, deduplication and bounded
random sampling. Pure parts of the Python code are embedded as Lean
functions; the database query layer, the Python `random.sample` primitive and
the nondeterministic iteration order of Python sets/hash-based structures are
embedded as explicit function parameters constrained by contracts
(`SampleOK`, `DedupOK`).
-/

set_option autoImplicit false

/-- Maximum depth in the category tree search (`Mitmachen.MAX_DEPTH`). -/
def MAX_DEPTH : Nat := 3

/-- Number of articles to return (`Mitmachen.NUM`). -/
def NUM : Nat := 10

/-- Rendering of Python's `"%02d" % m` for the month numbers used by
`generate_iabot_cats` (all of them below 100). -/
def month2 (m : Nat) : String :=
  if m < 10 then "0" ++ toString m else toString m

/-- Embedding of Python's `s.replace(" ", "_")` (api.py line 122).  For a
single-character pattern and single-character replacement this is exactly
the character-wise map, stated structurally so that it evaluates by
kernel reduction. -/
def spacesToUnderscores (s : String) : String :=
  String.mk (s.data.map (fun c => if c = ' ' then '_' else c))

/-- Embedding of Python's `s.replace("_", " ")` (api.py line 193), the
character-wise map for the single-character pattern. -/
def underscoresToSpaces (s : String) : String :=
  String.mk (s.data.map (fun c => if c = '_' then ' ' else c))

/-- Embedding of Python's `":" in cat` (api.py line 131): for the
one-character needle, membership of the character in the string. -/
def hasColon (c : String) : Bool := c.data.contains ':'

/-- Embedding of `generate_iabot_cats` (api.py lines 25-30): two list
comprehensions `for m in range(4, 13) for y in (8, 9)` over the format
strings `"Wikipedia:Defekte_Weblinks/Ungeprüfte_Archivlinks_201%d-%02d"` and
`"Wikipedia:Defekte_Weblinks/Ungeprüfte_Botmarkierungen_201%d-%02d"`,
concatenated `archive + dead`.  `List.range' 4 9 = [4, 5, ..., 12]` matches
Python's `range(4, 13)`. -/
def generate_iabot_cats : List String :=
  let archive := (List.range' 4 9).flatMap (fun m => ([8, 9] : List Nat).map
    (fun y => "Wikipedia:Defekte_Weblinks/Ungeprüfte_Archivlinks_201"
      ++ toString y ++ "-" ++ month2 m))
  let dead := (List.range' 4 9).flatMap (fun m => ([8, 9] : List Nat).map
    (fun y => "Wikipedia:Defekte_Weblinks/Ungeprüfte_Botmarkierungen_201"
      ++ toString y ++ "-" ++ month2 m))
  archive ++ dead

/-- Outcome of one level's batch subcategory query in
`_find_all_subcategories` (api.py lines 135-149).  `execFail` models an
exception raised by `cursor.execute`/`conn.commit` (not caught there: it
propagates out of the function after `conn.close()`).  `extractFail` models
an exception raised while building the list
`[item["page_title"].decode("utf-8") for item in cursor.fetchall()]`, which
is caught, logged, and replaced by `subcategories = []`.  `ok subs` is a
successful query returning the decoded subcategory titles. -/
inductive LevelResult where
  | execFail : LevelResult
  | extractFail : LevelResult
  | ok (subs : List String) : LevelResult

/-- Worker for `_find_all_subcategories` (api.py lines 126-152), recursing on
the fuel `MAX_DEPTH - depth` so that the `if depth >= self.MAX_DEPTH: return`
guard becomes the `0` case.  The accumulator `tree` is the Python set mutated
in place; the result carries the final set (`Except.error` when the level
query raised, in which case `tree.update`/recursion never run and the
exception propagates) together with the trace of frontier batches submitted
to the subcategory query, in order. -/
def subcatsGo (g : List String → LevelResult) :
    Nat → List String → Finset String →
      Except Unit (Finset String) × List (List String)
  | 0, _, tree => (Except.ok tree, [])
  | fuel + 1, categories, tree =>
    let cats := categories.filter (fun c => !(hasColon c))
    if cats.isEmpty then (Except.ok tree, [])
    else
      match g cats with
      | LevelResult.execFail => (Except.error (), [cats])
      | LevelResult.extractFail =>
        let r := subcatsGo g fuel [] tree
        (r.1, cats :: r.2)
      | LevelResult.ok subs =>
        let r := subcatsGo g fuel subs (tree ∪ subs.toFinset)
        (r.1, cats :: r.2)

/-- Embedding of `_find_all_subcategories(categories, tree, depth)`
(api.py lines 126-152) via `subcatsGo` with fuel `MAX_DEPTH - depth`. -/
def find_all_subcategories (g : List String → LevelResult)
    (categories : List String) (tree : Finset String) (depth : Nat) :
    Except Unit (Finset String) × List (List String) :=
  subcatsGo g (MAX_DEPTH - depth) categories tree

/-- Expansion stage of `find_articles` (api.py lines 122-123): the tree is
seeded with `set([category.replace(" ", "_")])` and
`_find_all_subcategories([category], tree, 0)` is invoked with the original
(not normalized) name as the depth-0 frontier. -/
def find_articles_expansion (g : List String → LevelResult)
    (category : String) :
    Except Unit (Finset String) × List (List String) :=
  find_all_subcategories g [category]
    ({spacesToUnderscores category} : Finset String) 0

/-- Model of one field of a Python result row as seen by
`_extract_problems`: a `bytes` value (whose utf-8 decoding may fail), an
already-decoded `str` (on which `.decode` raises `AttributeError`), or an
absent key (raising `KeyError`). -/
inductive PyField where
  | bytes (decoded : Option String) : PyField
  | pystr (s : String) : PyField
  | missing : PyField

/-- Model of one result row handed to `_extract_problems`. -/
structure Row where
  page_title : PyField
  tl_title : PyField

/-- Per-row extraction of `_extract_problems` (api.py lines 190-199):
`page = item["page_title"].decode("utf-8")` must succeed (a `str`, a missing
key or a decode error all land in the outer `except Exception`, which logs
and skips the row).  For the problem label, a successful decode of a `bytes`
value is post-processed with `.replace("_", " ")`; a `str` value raises
`AttributeError` on `.decode` and is used verbatim by the inner handler;
anything else propagates to the outer handler and the row is skipped. -/
def extractRow (item : Row) : Option (String × String) :=
  match item.page_title with
  | PyField.bytes (some page) =>
    match item.tl_title with
    | PyField.bytes (some s) => some (page, underscoresToSpaces s)
    | PyField.pystr s => some (page, s)
    | PyField.bytes none => none
    | PyField.missing => none
  | PyField.bytes none => none
  | PyField.pystr _ => none
  | PyField.missing => none

/-- The aggregation map `articles`: a Python dict from page title to the list
of accumulated problem labels, embedded as its insertion-ordered entry
list. -/
abbrev AMap := List (String × List String)

/-- Embedding of `articles[page].append(problem)` / `except KeyError:
articles[page] = [problem]` (api.py lines 200-203): an existing key keeps its
position and gets the label appended; a new key is inserted at the end
(Python dicts preserve insertion order). -/
def addProblem (articles : AMap) (page problem : String) : AMap :=
  if articles.any (fun pr => pr.1 == page) then
    articles.map (fun pr =>
      if pr.1 == page then (pr.1, pr.2 ++ [problem]) else pr)
  else
    articles ++ [(page, [problem])]

/-- Embedding of `_extract_problems(result, articles)` (api.py lines
187-204): fold over the rows, skipping rows whose extraction fails and
appending the extracted label to its page's entry otherwise. -/
def extract_problems (result : List Row) (articles : AMap) : AMap :=
  result.foldl (fun acc item =>
    match extractRow item with
    | none => acc
    | some (page, problem) => addProblem acc page problem) articles

/-- Pages named by the rows that extract successfully. -/
def extractedPages (rows : List Row) : List String :=
  (rows.filterMap extractRow).map Prod.fst

/-- Keys (page titles) of an aggregation map, in order. -/
def keysOf (a : AMap) : List String := a.map Prod.fst

/-- Contract of Python's `random.sample(population, k)` for `k ≤ len(population)`
(as called on api.py line 180): a list of `k` elements chosen without
replacement from the population, i.e. a permutation of one of its
sublists.  Which such list comes out is the random part, left abstract. -/
def SampleOK (s : AMap → Nat → AMap) : Prop :=
  ∀ pop k, k ≤ pop.length → (s pop k).length = k ∧ List.Subperm (s pop k) pop

/-- Contract of Python's `list(set(problems))` (api.py line 182): a
duplicate-free list with exactly the elements of the input; the order is the
hash-dependent set iteration order, left abstract. -/
def DedupOK (d : List String → List String) : Prop :=
  ∀ l, (d l).Nodup ∧ ∀ x, x ∈ d l ↔ x ∈ l

/-- Final stage of `_find_tagged_articles` (api.py lines 176-183):
`articles.items()`, the `more` flag, the `random.sample` truncation when more
than `NUM` pages were aggregated, and the per-page `list(set(problems))`
deduplication.  `s` stands for `random.sample` and `d` for
`list(set(...))`. -/
def finalize (d : List String → List String) (s : AMap → Nat → AMap)
    (articles : AMap) : List (String × List String) × Bool :=
  let more := decide (articles.length > NUM)
  let arts := if more then s articles NUM else articles
  (arts.map (fun pr => (pr.1, d pr.2)), more)

/-- Embedding of `_find_tagged_articles` (api.py lines 154-183) with the two
database queries abstracted to their result row lists: source-1 rows
(tagged articles) are folded into the empty dict first, then source-2 rows
(IABot categories), then the map is finalized. -/
def find_tagged_articles (d : List String → List String)
    (s : AMap → Nat → AMap) (rows1 rows2 : List Row) :
    List (String × List String) × Bool :=
  finalize d s (extract_problems rows2 (extract_problems rows1 []))

/-- Embedding of `find_articles(category)` (api.py lines 115-124): seed and
expand the category tree, then aggregate; an exception escaping the
expansion's `cursor.execute` propagates and the request fails.  `q1`/`q2`
model the two problem-source queries as functions of `list(tree)`, whose
(hash-dependent) iteration order is the parameter `enum`. -/
def find_articles (g : List String → LevelResult)
    (q1 q2 : List String → List Row) (d : List String → List String)
    (s : AMap → Nat → AMap) (enum : Finset String → List String)
    (category : String) :
    Except Unit (List (String × List String) × Bool) :=
  match (find_articles_expansion g category).1 with
  | Except.error e => Except.error e
  | Except.ok tree =>
    let cats := enum tree
    Except.ok (find_tagged_articles d s (q1 cats) (q2 cats))

/-- Reference sampler satisfying `SampleOK`, used to instantiate witnesses. -/
def pySample (pop : AMap) (k : Nat) : AMap := pop.take k

/-- Reference deduplicator satisfying `DedupOK`, used to instantiate
witnesses. -/
def pyDedup (l : List String) : List String := l.dedup

/-! ### Lemmas about the subtree expansion -/

/-- An empty frontier ends the traversal at once: the accumulated tree is
returned and no query is submitted. -/
lemma subcatsGo_nil (g : List String → LevelResult) (fuel : Nat)
    (tree : Finset String) :
    subcatsGo g fuel [] tree = (Except.ok tree, []) := by
  cases fuel <;> simp [subcatsGo]

/-- The accumulated category set only ever grows: whatever tree the traversal
starts from is contained in any successfully returned tree. -/
lemma subcatsGo_mono (g : List String → LevelResult) :
    ∀ (fuel : Nat) (cats : List String) (tree res : Finset String),
      (subcatsGo g fuel cats tree).1 = Except.ok res → tree ⊆ res := by
  intro fuel
  induction fuel with
  | zero =>
    intro cats tree res h
    simp only [subcatsGo, Except.ok.injEq] at h
    exact h ▸ Finset.Subset.refl tree
  | succ n ih =>
    intro cats tree res h
    simp only [subcatsGo] at h
    split at h
    · simp only [Except.ok.injEq] at h
      exact h ▸ Finset.Subset.refl tree
    · split at h
      · simp at h
      · exact ih _ _ _ h
      · exact Finset.Subset.trans Finset.subset_union_left (ih _ _ _ h)

/-- At most one batch query is submitted per remaining depth level. -/
lemma subcatsGo_trace_len (g : List String → LevelResult) :
    ∀ (fuel : Nat) (cats : List String) (tree : Finset String),
      ((subcatsGo g fuel cats tree).2).length ≤ fuel := by
  intro fuel
  induction fuel with
  | zero => intro cats tree; simp [subcatsGo]
  | succ n ih =>
    intro cats tree
    simp only [subcatsGo]
    split
    · simp
    · split
      · simp
      · simpa using ih _ _
      · simpa using ih _ _

/-- Filtering with a predicate leaves only elements satisfying it. -/
lemma all_filter_self {α : Type} (p : α → Bool) (l : List α) :
    (l.filter p).all p = true := by
  rw [List.all_eq_true]
  intro a ha
  exact (List.mem_filter.mp ha).2

/-- Every batch submitted to the subcategory query consists of identifiers
that survived the colon filter. -/
lemma subcatsGo_trace_colon (g : List String → LevelResult) :
    ∀ (fuel : Nat) (cats : List String) (tree : Finset String),
      ((subcatsGo g fuel cats tree).2).all
        (fun b => b.all (fun c => !(hasColon c))) = true := by
  intro fuel
  induction fuel with
  | zero => intro cats tree; simp [subcatsGo]
  | succ n ih =>
    intro cats tree
    simp only [subcatsGo]
    split
    · simp
    · split
      · simp [all_filter_self]
      · simp [all_filter_self, ih]
      · simp [all_filter_self, ih]

/-- If no level query raises at `cursor.execute`, the traversal always
returns a tree. -/
lemma subcatsGo_ok (g : List String → LevelResult)
    (hg : ∀ l, g l ≠ LevelResult.execFail) :
    ∀ (fuel : Nat) (cats : List String) (tree : Finset String),
      ∃ res, (subcatsGo g fuel cats tree).1 = Except.ok res := by
  intro fuel
  induction fuel with
  | zero => intro cats tree; exact ⟨tree, rfl⟩
  | succ n ih =>
    intro cats tree
    simp only [subcatsGo]
    split
    · exact ⟨tree, rfl⟩
    · split
      · next heq => exact absurd heq (hg _)
      · exact ih _ _
      · exact ih _ _

/-- A level whose result extraction fails is treated as yielding zero
subcategories: the accumulated tree is preserved, the next frontier is empty
and no further query is submitted. -/
lemma subcatsGo_extractFail (g : List String → LevelResult) (fuel : Nat)
    (categories : List String) (tree : Finset String)
    (hne : (categories.filter (fun c => !(hasColon c))).isEmpty = false)
    (hg : g (categories.filter (fun c => !(hasColon c)))
        = LevelResult.extractFail) :
    subcatsGo g (fuel + 1) categories tree =
      (Except.ok tree, [categories.filter (fun c => !(hasColon c))]) := by
  simp [subcatsGo, hne, hg, subcatsGo_nil]

/-! ### Concrete mock graph services used in counterexamples and witnesses -/

/-- Mock category graph with a two-cycle `"A" → "B" → "A"`. -/
def gcyc : List String → LevelResult := fun cats =>
  if cats = ["A"] then LevelResult.ok ["B"]
  else if cats = ["B"] then LevelResult.ok ["A"]
  else LevelResult.ok []

/-- Mock graph service whose depth-1 batch query raises a retrieval fault at
`cursor.execute`. -/
def gfail : List String → LevelResult := fun cats =>
  if cats = ["A"] then LevelResult.ok ["B"] else LevelResult.execFail

/-- Mock graph service with no subcategories anywhere. -/
def gempty : List String → LevelResult := fun _ => LevelResult.ok []

/-! ### C2 -/

/-- C2 (counterexample): on the cyclic graph `gcyc`, the expansion rooted at
`"A"` submits the identifier `"A"` to the subcategory query twice (at depths
0 and 2), refuting the claim that each distinct identifier is queried at most
once: the frontier is never filtered against the accumulated set. -/
theorem c2_requery_counterexample :
    ¬ ((((find_articles_expansion gcyc "A").2).flatten.count "A") ≤ 1) := by
  decide

/-- C2 (amended): the expander drops namespace-qualified (colon-containing)
identifiers from each frontier before querying, but does not filter
identifiers already in the accumulated set, so on cyclic graphs the same
identifier can be submitted at several levels; re-querying is bounded only by
the depth limit, the number of submitted batches being at most
`MAX_DEPTH`. -/
theorem c2_query_bound (g : List String → LevelResult) (category : String) :
    ((find_articles_expansion g category).2).length ≤ MAX_DEPTH ∧
    ((find_articles_expansion g category).2).all
      (fun b => b.all (fun c => !(hasColon c))) = true := by
  constructor
  · simpa [find_articles_expansion, find_all_subcategories] using
      subcatsGo_trace_len g (MAX_DEPTH - 0) [category]
        ({spacesToUnderscores category} : Finset String)
  · simpa [find_articles_expansion, find_all_subcategories] using
      subcatsGo_trace_colon g (MAX_DEPTH - 0) [category]
        ({spacesToUnderscores category} : Finset String)

/-! ### C7 -/

/-- C7: whenever the expansion stage of `find_articles` returns a category
set (for any graph service, cyclic or not), that set contains the normalized
root `category.replace(" ", "_")`, which seeded the accumulator. -/
theorem c7_root_in_tree (g : List String → LevelResult) (category : String)
    (tree : Finset String)
    (h : (find_articles_expansion g category).1 = Except.ok tree) :
    spacesToUnderscores category ∈ tree := by
  simp only [find_articles_expansion, find_all_subcategories] at h
  exact subcatsGo_mono g (MAX_DEPTH - 0) [category] _ tree h
    (Finset.mem_singleton_self _)

/-- Witness for C7 at the cyclic graph `gcyc` and root `"A"`. -/
theorem c7_root_in_tree_w :
    spacesToUnderscores "A" ∈ ({"A", "B"} : Finset String) :=
  c7_root_in_tree gcyc "A" {"A", "B"} (by rfl)

/-! ### C4 -/

/-- C4 (counterexample): with `gfail`, the depth-1 batch query (frontier
`["B"]`) raises a retrieval fault at `cursor.execute`; the failure is not
caught inside `_find_all_subcategories`, so the top-level `find_articles`
request does not complete but propagates the error — refuting the claim that
every level failure is logged and swallowed. -/
theorem c4_execfail_counterexample :
    (find_articles_expansion gfail "A").2 = [["A"], ["B"]] ∧
    find_articles gfail (fun _ => []) (fun _ => []) pyDedup pySample
      (fun _ => []) "A" = Except.error () := by
  constructor
  · decide
  · rfl

/-- C4 (amended): only a failure while extracting the fetched subcategory
rows is logged and treated as yielding zero subcategories — the accumulated
set is preserved, the next frontier is empty and traversal stops with no
further query; and whenever no level query raises at `cursor.execute`, the
top-level `find_articles` request completes.  A `cursor.execute` failure
itself propagates (see the counterexample). -/
theorem c4_level_fault_handling :
    (∀ (g : List String → LevelResult) (categories : List String)
        (tree : Finset String) (depth : Nat),
        depth < MAX_DEPTH →
        (categories.filter (fun c => !(hasColon c))).isEmpty = false →
        g (categories.filter (fun c => !(hasColon c)))
          = LevelResult.extractFail →
        find_all_subcategories g categories tree depth =
          (Except.ok tree, [categories.filter (fun c => !(hasColon c))])) ∧
    (∀ (g : List String → LevelResult),
        (∀ l, g l ≠ LevelResult.execFail) →
        ∀ (q1 q2 : List String → List Row) (d : List String → List String)
          (s : AMap → Nat → AMap) (enum : Finset String → List String)
          (category : String),
          ∃ r, find_articles g q1 q2 d s enum category = Except.ok r) := by
  constructor
  · intro g categories tree depth hd hne hg
    obtain ⟨k, hk⟩ : ∃ k, MAX_DEPTH - depth = k + 1 :=
      ⟨MAX_DEPTH - depth - 1, by omega⟩
    rw [find_all_subcategories, hk]
    exact subcatsGo_extractFail g k categories tree hne hg
  · intro g hg q1 q2 d s enum category
    obtain ⟨res, hres⟩ := subcatsGo_ok g hg (MAX_DEPTH - 0) [category]
      ({spacesToUnderscores category} : Finset String)
    refine ⟨find_tagged_articles d s (q1 (enum res)) (q2 (enum res)), ?_⟩
    simp only [find_articles, find_articles_expansion, find_all_subcategories,
      hres]

/-- Witness for C4 (amended): an extraction failure at depth 0 preserves the
seeded tree and ends the traversal; a graph with no subcategories lets
`find_articles` complete. -/
theorem c4_level_fault_handling_w :
    (find_all_subcategories (fun _ => LevelResult.extractFail) ["A"]
        ({"A"} : Finset String) 0 =
      (Except.ok ({"A"} : Finset String), [["A"]])) ∧
    (∃ r, find_articles gempty (fun _ => []) (fun _ => []) pyDedup pySample
        (fun _ => []) "A" = Except.ok r) := by
  constructor
  · exact c4_level_fault_handling.1 (fun _ => LevelResult.extractFail)
      ["A"] {"A"} 0 (by decide) (by decide) rfl
  · exact c4_level_fault_handling.2 gempty
      (fun _ h => LevelResult.noConfusion h)
      (fun _ => []) (fun _ => []) pyDedup pySample (fun _ => []) "A"

/-! ### C6 -/

/-- C6 (counterexample): for `category = "a b"`, the identifier submitted to
the depth-0 subcategory query is the original `"a b"`, while the identifier
seeded into the category set is the normalized `"a_b"` — the two differ, so
the claim that the expansion receives the normalized root as its depth-0
frontier is false. -/
theorem c6_counterexample :
    (find_articles_expansion gempty "a b").2.head? = some ["a b"] ∧
    ("a b" ∉ ({spacesToUnderscores "a b"} : Finset String)) := by
  decide

/-- C6 (amended): `find_articles` seeds the category set with the normalized
name but passes the original, un-normalized name as the depth-0 frontier;
only when normalization leaves the name unchanged (no spaces) does the
frontier member queried at depth 0 equal the seeded identifier. -/
theorem c6_normalization (g : List String → LevelResult) (category : String)
    (hc : hasColon category = false)
    (hn : spacesToUnderscores category = category) :
    (find_articles_expansion g category).2.head? =
      some [spacesToUnderscores category] := by
  rw [hn]
  simp only [find_articles_expansion, find_all_subcategories]
  show (subcatsGo g 3 [category] _).2.head? = some [category]
  simp only [subcatsGo, List.filter, hc, Bool.not_false]
  cases hg : g [category] <;> simp

/-- Witness for C6 (amended) at the space-free root `"A_B"`. -/
theorem c6_normalization_w :
    (find_articles_expansion gempty "A_B").2.head? =
      some [spacesToUnderscores "A_B"] :=
  c6_normalization gempty "A_B" (by decide) (by decide)

/-! ### C5 -/

/-- C5 (counterexample): the catalog has no January entry for either year or
type — `range(4, 13)` produces months April through December only — so the
claim that the list spans all twelve months is false. -/
theorem c5_counterexample :
    "Wikipedia:Defekte_Weblinks/Ungeprüfte_Archivlinks_2018-01"
      ∉ generate_iabot_cats := by decide

/-- C5 (amended): `generate_iabot_cats` is a deterministic constant list of
36 entries; every entry has the form
`Wikipedia:Defekte_Weblinks/<type>_201<y>-<mm>` with `<type>` one of the two
fixed entry types, `<y>` one of the two fixed years 2018/2019, and `<mm>` one
of the nine months April (04) through December (12); conversely each such
combination occurs in the list. -/
theorem c5_catalog_characterization :
    generate_iabot_cats.length = 36 ∧
    (∀ s ∈ generate_iabot_cats,
      ∃ t ∈ (["Ungeprüfte_Archivlinks", "Ungeprüfte_Botmarkierungen"] :
          List String),
        ∃ y ∈ ([8, 9] : List Nat), ∃ m ∈ List.range' 4 9,
          s = "Wikipedia:Defekte_Weblinks/" ++ t ++ "_201" ++ toString y
            ++ "-" ++ month2 m) ∧
    (∀ t ∈ (["Ungeprüfte_Archivlinks", "Ungeprüfte_Botmarkierungen"] :
        List String),
      ∀ y ∈ ([8, 9] : List Nat), ∀ m ∈ List.range' 4 9,
        ("Wikipedia:Defekte_Weblinks/" ++ t ++ "_201" ++ toString y
          ++ "-" ++ month2 m) ∈ generate_iabot_cats) := by decide

/-- Witness for C5 (amended): the April 2018 archive-links entry is in the
catalog. -/
theorem c5_catalog_characterization_w :
    ("Wikipedia:Defekte_Weblinks/" ++ "Ungeprüfte_Archivlinks" ++ "_201"
      ++ toString (8 : Nat) ++ "-" ++ month2 4) ∈ generate_iabot_cats :=
  c5_catalog_characterization.2.2 "Ungeprüfte_Archivlinks" (by decide)
    8 (by decide) 4 (by decide)

/-! ### Lemmas about the aggregation map -/

/-- Mapping preserves sub-permutations. -/
lemma subperm_map {α β : Type} (f : α → β) {l1 l2 : List α}
    (h : List.Subperm l1 l2) : List.Subperm (l1.map f) (l2.map f) := by
  obtain ⟨l, hp, hs⟩ := h
  exact ⟨l.map f, hp.map f, hs.map f⟩

/-- A sub-permutation of a duplicate-free list is duplicate-free. -/
lemma subperm_nodup {α : Type} {l1 l2 : List α} (h : List.Subperm l1 l2)
    (hn : l2.Nodup) : l1.Nodup := by
  obtain ⟨l, hp, hs⟩ := h
  exact hp.nodup_iff.mp (hs.nodup hn)

/-- The reference sampler meets the `random.sample` contract. -/
lemma pySample_ok : SampleOK pySample := by
  intro pop k hk
  refine ⟨?_, (List.take_sublist k pop).subperm⟩
  simp [pySample, List.length_take, Nat.min_eq_left hk]

/-- The reference deduplicator meets the `list(set(...))` contract. -/
lemma pyDedup_ok : DedupOK pyDedup := by
  intro l
  exact ⟨List.nodup_dedup l, fun x => List.mem_dedup⟩

/-- Adding a problem for a different page leaves an existing entry
untouched. -/
lemma addProblem_mem_ne {a : AMap} {p : String} {l : List String}
    {q : String} (prob : String) (hpq : p ≠ q) (h : (p, l) ∈ a) :
    (p, l) ∈ addProblem a q prob := by
  unfold addProblem
  split
  · refine List.mem_map.mpr ⟨(p, l), h, ?_⟩
    simp [hpq]
  · exact List.mem_append_left _ h

/-- An entry's accumulated labels are preserved as a prefix by `addProblem`,
and nothing is appended for pages other than the one named. -/
lemma addProblem_extends {a : AMap} {p : String} {l : List String}
    (q prob : String) (h : (p, l) ∈ a) :
    ∃ t, (p, l ++ t) ∈ addProblem a q prob ∧ (p ≠ q → t = []) := by
  by_cases hpq : p = q
  · subst hpq
    have hany : a.any (fun pr => pr.1 == p) = true :=
      List.any_eq_true.mpr ⟨(p, l), h, by simp⟩
    refine ⟨[prob], ?_, fun hpp => absurd rfl hpp⟩
    unfold addProblem
    rw [if_pos hany]
    exact List.mem_map.mpr ⟨(p, l), h, by simp⟩
  · exact ⟨[], by simpa using addProblem_mem_ne prob hpq h, fun _ => rfl⟩

/-- `addProblem` keeps the key list unchanged for an existing page and
appends the (fresh) page name otherwise. -/
lemma keysOf_addProblem (a : AMap) (q prob : String) :
    keysOf (addProblem a q prob) = keysOf a ∨
    (keysOf (addProblem a q prob) = keysOf a ++ [q] ∧ q ∉ keysOf a) := by
  unfold addProblem
  split
  · left
    unfold keysOf
    rw [List.map_map]
    refine List.map_congr_left ?_
    intro pr hpr
    by_cases h : pr.1 == q <;> simp_all
  · next hany =>
    right
    refine ⟨by simp [keysOf], ?_⟩
    intro hq
    obtain ⟨pr, hpr, hpr1⟩ := List.mem_map.mp hq
    exact hany (List.any_eq_true.mpr ⟨pr, hpr, by simp [hpr1]⟩)

/-- `addProblem` preserves duplicate-freedom of the page keys. -/
lemma keysOf_addProblem_nodup {a : AMap} (q prob : String)
    (h : (keysOf a).Nodup) : (keysOf (addProblem a q prob)).Nodup := by
  rcases keysOf_addProblem a q prob with heq | ⟨heq, hq⟩
  · rwa [heq]
  · rw [heq]
    simp [List.nodup_append, h, hq]

/-- One step of the `_extract_problems` fold. -/
lemma extract_problems_cons (r : Row) (rows : List Row) (a : AMap) :
    extract_problems (r :: rows) a =
      extract_problems rows
        (match extractRow r with
         | none => a
         | some (page, problem) => addProblem a page problem) := rfl

/-- Successfully extracted pages of a row list, cons case. -/
lemma extractedPages_cons (r : Row) (rows : List Row) :
    extractedPages (r :: rows) =
      (match extractRow r with
       | none => extractedPages rows
       | some pq => pq.1 :: extractedPages rows) := by
  cases hr : extractRow r <;> simp [extractedPages, List.filterMap_cons, hr]

/-- `_extract_problems` only extends the aggregation map: every entry keeps
its accumulated labels as a prefix, and an entry whose page is named by no
successfully extracted row is unchanged. -/
lemma extract_problems_extends :
    ∀ (rows : List Row) (a : AMap) (p : String) (l : List String),
      (p, l) ∈ a →
      ∃ t, (p, l ++ t) ∈ extract_problems rows a ∧
        (p ∉ extractedPages rows → t = []) := by
  intro rows
  induction rows with
  | nil =>
    intro a p l h
    exact ⟨[], by simpa [extract_problems] using h, fun _ => rfl⟩
  | cons r rows ih =>
    intro a p l h
    rw [extract_problems_cons]
    cases hr : extractRow r with
    | none =>
      obtain ⟨t, ht, hemp⟩ := ih a p l h
      refine ⟨t, by simpa [hr] using ht, ?_⟩
      intro hnp
      refine hemp ?_
      rw [extractedPages_cons, hr] at hnp
      exact hnp
    | some pq =>
      obtain ⟨q, prob⟩ := pq
      obtain ⟨t0, ht0, h0⟩ := addProblem_extends q prob h
      obtain ⟨t1, ht1, h1⟩ := ih (addProblem a q prob) p (l ++ t0) ht0
      refine ⟨t0 ++ t1, by simpa [hr, List.append_assoc] using ht1, ?_⟩
      intro hnp
      rw [extractedPages_cons, hr] at hnp
      simp only [List.mem_cons, not_or] at hnp
      rw [h0 hnp.1, h1 hnp.2]
      rfl

/-- `_extract_problems` preserves duplicate-freedom of the page keys. -/
lemma keysOf_extract_problems_nodup :
    ∀ (rows : List Row) (a : AMap), (keysOf a).Nodup →
      (keysOf (extract_problems rows a)).Nodup := by
  intro rows
  induction rows with
  | nil => intro a h; simpa [extract_problems] using h
  | cons r rows ih =>
    intro a h
    rw [extract_problems_cons]
    cases hr : extractRow r with
    | none => simpa [hr] using ih a h
    | some pq =>
      obtain ⟨q, prob⟩ := pq
      simpa [hr] using ih (addProblem a q prob) (keysOf_addProblem_nodup q prob h)

/-- In a map with duplicate-free keys, a page determines its label list. -/
lemma nodup_key_eq :
    ∀ {a : AMap}, (keysOf a).Nodup → ∀ {p : String} {x y : List String},
      (p, x) ∈ a → (p, y) ∈ a → x = y := by
  intro a
  induction a with
  | nil => intro _ p x y hx _; cases hx
  | cons e rest ih =>
    intro h p x y hx hy
    obtain ⟨e1, e2⟩ := e
    have hh : e1 ∉ keysOf rest ∧ (keysOf rest).Nodup := by
      simpa [keysOf] using h
    have hkey : ∀ {z : List String}, (p, z) ∈ rest → p ∈ keysOf rest :=
      fun hz => List.mem_map.mpr ⟨(p, _), hz, rfl⟩
    rcases List.mem_cons.mp hx with hex | hx'
    · rcases List.mem_cons.mp hy with hey | hy'
      · rw [← hex] at hey
        injection hey with h1 h2
        exact h2.symm
      · injection hex with he1 he2
        exact absurd (hkey hy') (he1 ▸ hh.1)
    · rcases List.mem_cons.mp hy with hey | hy'
      · injection hey with he1 he2
        exact absurd (hkey hx') (he1 ▸ hh.1)
      · exact ih hh.2 hx' hy'

/-- Deduplicating each entry's problems does not change the page keys. -/
lemma map_fst_dedup_map (d : List String → List String) (l : AMap) :
    (l.map (fun pr => (pr.1, d pr.2))).map Prod.fst = keysOf l := by
  rw [List.map_map]
  rfl

/-- `finalize` keeps the page keys duplicate-free for any sampler meeting the
`random.sample` contract. -/
lemma finalize_keys_nodup (d : List String → List String)
    (s : AMap → Nat → AMap) (hs : SampleOK s) (articles : AMap)
    (hk : (keysOf articles).Nodup) :
    ((finalize d s articles).1.map Prod.fst).Nodup := by
  rw [finalize]
  by_cases h : articles.length > NUM
  · have hsub := (hs articles NUM (Nat.le_of_lt h)).2
    have hnd : (keysOf (s articles NUM)).Nodup :=
      subperm_nodup (subperm_map Prod.fst hsub) hk
    simpa [h, map_fst_dedup_map] using hnd
  · simpa [h, map_fst_dedup_map] using hk

/-- Concrete aggregation map used in witnesses. -/
def amap2 : AMap := [("P1", ["x", "x"]), ("P2", ["y"])]

/-- Concrete result row used in witnesses: `page_title` and `tl_title` both
decode (the label needs no underscore unescaping). -/
def rowA : Row :=
  ⟨PyField.bytes (some "ArticleA"), PyField.bytes (some "Lückenhaft")⟩

/-! ### C1 -/

/-- C1: for an aggregation map with `n` entries (one per distinct page), the
finalize step of `_find_tagged_articles` returns exactly `min n NUM` page
results and a `more` flag holding exactly when `n > NUM`; for `n ≤ NUM` all
pages are returned (each with its deduplicated problems) and for `n > NUM`
the result is the image of an exactly-`NUM`-element sample drawn without
replacement from the map's entries.  The uniformity of the `random.sample`
distribution is carried by the abstract sampler `s`, constrained to the
`SampleOK` contract. -/
theorem c1_sampling_bound (d : List String → List String)
    (s : AMap → Nat → AMap) (hs : SampleOK s) (articles : AMap) :
    ((finalize d s articles).1.length = min articles.length NUM) ∧
    ((finalize d s articles).2 = true ↔ articles.length > NUM) ∧
    (articles.length ≤ NUM →
      (finalize d s articles).1 =
        articles.map (fun pr => (pr.1, d pr.2))) ∧
    (articles.length > NUM →
      ∃ sel, List.Subperm sel articles ∧ sel.length = NUM ∧
        (finalize d s articles).1 = sel.map (fun pr => (pr.1, d pr.2))) := by
  by_cases h : articles.length > NUM
  · obtain ⟨hlen, hsub⟩ := hs articles NUM (Nat.le_of_lt h)
    refine ⟨?_, by simp [finalize, h], fun hle => absurd h (by omega),
      fun _ => ⟨s articles NUM, hsub, hlen, by simp [finalize, h]⟩⟩
    simp [finalize, h, hlen, Nat.min_eq_right (Nat.le_of_lt h)]
  · refine ⟨?_, by simp [finalize, h], fun _ => by simp [finalize, h],
      fun hgt => absurd hgt h⟩
    simp [finalize, h, Nat.min_eq_left (Nat.le_of_not_lt h)]

/-- Witness for C1 on a concrete two-page map. -/
theorem c1_sampling_bound_w :
    (finalize pyDedup pySample amap2).1.length = min amap2.length NUM :=
  (c1_sampling_bound pyDedup pySample pySample_ok amap2).1

/-! ### C3 -/

/-- C3: in the final output of `_find_tagged_articles`, no page's problems
list contains a duplicate label, whatever the two sources' row sets report —
including the same label repeated within one source or across both. -/
theorem c3_problems_nodup (d : List String → List String)
    (s : AMap → Nat → AMap) (hd : DedupOK d) (rows1 rows2 : List Row) :
    ∀ pr ∈ (find_tagged_articles d s rows1 rows2).1, pr.2.Nodup := by
  intro pr hpr
  simp only [find_tagged_articles, finalize] at hpr
  obtain ⟨a, ha, rfl⟩ := List.mem_map.mp hpr
  exact (hd a.2).1

/-- Witness for C3: the same label reported twice by source 1 and again by
source 2 collapses to a single label on the page's result entry. -/
theorem c3_problems_nodup_w :
    (("ArticleA", ["Lückenhaft"]) : String × List String).2.Nodup :=
  c3_problems_nodup pyDedup pySample pyDedup_ok [rowA, rowA] [rowA]
    ("ArticleA", ["Lückenhaft"]) (by decide)

/-! ### C8 -/

/-- C8: for a map whose distinct-page count is at most the cap, finalizing
twice — with possibly different set-iteration orders (`d1`/`d2`) and sampler
states (`s1`/`s2`), neither sampler being consulted — yields identical
output: both `more` flags are false, the page lists coincide, and any page's
problem lists from the two runs have the same label membership. -/
theorem c8_finalize_idempotent (d1 d2 : List String → List String)
    (s1 s2 : AMap → Nat → AMap) (articles : AMap)
    (h1 : DedupOK d1) (h2 : DedupOK d2)
    (hn : articles.length ≤ NUM) (hk : (keysOf articles).Nodup) :
    ((finalize d1 s1 articles).2 = false ∧
      (finalize d2 s2 articles).2 = false) ∧
    ((finalize d1 s1 articles).1.map Prod.fst =
      (finalize d2 s2 articles).1.map Prod.fst) ∧
    (∀ (p : String) (l1 l2 : List String),
      (p, l1) ∈ (finalize d1 s1 articles).1 →
      (p, l2) ∈ (finalize d2 s2 articles).1 →
      ∀ x, x ∈ l1 ↔ x ∈ l2) := by
  have hlt : ¬ (articles.length > NUM) := by omega
  refine ⟨⟨by simp [finalize, hlt], by simp [finalize, hlt]⟩, ?_, ?_⟩
  · simp [finalize, hlt, map_fst_dedup_map]
  · intro p l1 l2 hm1 hm2 x
    simp only [finalize, hlt] at hm1 hm2
    rw [if_neg (by simp [hlt])] at hm1 hm2
    obtain ⟨a, ha, hae⟩ := List.mem_map.mp hm1
    obtain ⟨b, hb, hbe⟩ := List.mem_map.mp hm2
    obtain ⟨ha1, ha2⟩ := Prod.mk.injEq .. ▸ hae
    obtain ⟨hb1, hb2⟩ := Prod.mk.injEq .. ▸ hbe
    have hA : (p, a.2) ∈ articles := by rw [← ha1]; simpa using ha
    have hB : (p, b.2) ∈ articles := by rw [← hb1]; simpa using hb
    have hab : a.2 = b.2 := nodup_key_eq hk hA hB
    rw [← ha2, ← hb2, hab]
    rw [(h1 b.2).2 x, (h2 b.2).2 x]

/-- Witness for C8 on a concrete two-page map. -/
theorem c8_finalize_idempotent_w :
    ((finalize pyDedup pySample amap2).2 = false ∧
      (finalize pyDedup pySample amap2).2 = false) :=
  (c8_finalize_idempotent pyDedup pyDedup pySample pySample amap2
    pyDedup_ok pyDedup_ok (by decide) (by decide)).1

/-! ### C9 -/

/-- C9: each page identifier occurs at most once in the result list of
`_find_tagged_articles`: the aggregation dict is keyed by page, so repeated
rows for one page merge into a single entry, and the keys stay
duplicate-free through sampling and deduplication. -/
theorem c9_pages_unique (d : List String → List String)
    (s : AMap → Nat → AMap) (hs : SampleOK s) (rows1 rows2 : List Row) :
    ((find_tagged_articles d s rows1 rows2).1.map Prod.fst).Nodup := by
  rw [find_tagged_articles]
  refine finalize_keys_nodup d s hs _ ?_
  exact keysOf_extract_problems_nodup rows2 _
    (keysOf_extract_problems_nodup rows1 [] (by simp [keysOf]))

/-- Witness for C9: duplicate rows for one page across both sources yield a
single entry. -/
theorem c9_pages_unique_w :
    ((find_tagged_articles pyDedup pySample [rowA, rowA] [rowA]).1.map
      Prod.fst).Nodup :=
  c9_pages_unique pyDedup pySample pySample_ok [rowA, rowA] [rowA]

/-! ### C10 -/

/-- C10: `_extract_problems` only extends the map: an existing page entry
keeps all previously accumulated labels (new ones are appended after them),
and an entry whose page is named by no successfully extracted row is left
unchanged. -/
theorem c10_extract_frame (rows : List Row) (articles : AMap) (p : String)
    (l : List String) (hp : (p, l) ∈ articles) :
    (∃ t, (p, l ++ t) ∈ extract_problems rows articles) ∧
    (p ∉ extractedPages rows → (p, l) ∈ extract_problems rows articles) := by
  obtain ⟨t, ht, hemp⟩ := extract_problems_extends rows articles p l hp
  refine ⟨⟨t, ht⟩, fun hnp => ?_⟩
  have hte := hemp hnp
  subst hte
  simpa using ht

/-- Witness for C10: a pre-existing entry for another page survives a row
set about `"ArticleA"`. -/
theorem c10_extract_frame_w :
    (∃ t, ("P1", ["old"] ++ t) ∈ extract_problems [rowA] [("P1", ["old"])]) ∧
    ("P1" ∉ extractedPages [rowA] →
      ("P1", ["old"]) ∈ extract_problems [rowA] [("P1", ["old"])]) :=
  c10_extract_frame [rowA] [("P1", ["old"])] "P1" ["old"] (by decide)
